import Mathlib

/-!
Verification of the transaction-listing page of the `sao-ke` repository.

The repository contains three near-duplicate client page implementations:
* `src/app/page.tsx` — search / sort / paginate over an in-memory list;
* `src/unnamed/part_001` — the same pipeline with a page-size input;
* `src/unnamed/part_000` — a debounced variant whose search re-fetches the
  dataset and filters it with a diacritic-stripping normalizer.

Modelling conventions:
* JS strings are modelled as `List Char` (Unicode scalar values; the
  difference with UTF-16 code units only shows up for astral characters,
  which no claim exercises).
* `String.prototype.toLowerCase` is modelled as an arbitrary per-character
  expansion `low : Char → List Char`, universally quantified in the
  theorems and instantiated with `fun c => [c.toLower]` in witnesses.
* `String.prototype.normalize('NFD')` is likewise modelled as an arbitrary
  per-character decomposition `nfd : Char → List Char`.
* JS numbers are modelled as exact rationals `ℚ` (every value the claims
  exercise is exactly representable).
* `Array.prototype.sort` with a comparator is stable (ES2019); it is
  modelled as insertion sort over the relation `fun a b => cmp a b ≤ 0`.
-/

/-! ### Text model -/

/-- Decides whether the first list is a prefix of the second
(character-by-character). -/
def isPrefixList : List Char → List Char → Bool
  | [], _ => true
  | _ :: _, [] => false
  | a :: as, b :: bs => a = b && isPrefixList as bs

/-- JS `hay.includes(needle)`: `needle` occurs contiguously in `hay`.
The empty needle is always found. -/
def jsIncludes : List Char → List Char → Bool
  | [], needle => isPrefixList needle []
  | c :: t, needle => isPrefixList needle (c :: t) || jsIncludes t needle

/-- JS string comparison `a < b`: lexicographic on code units
(modelled on `Char.toNat`). -/
def strLt : List Char → List Char → Bool
  | _, [] => false
  | [], _ :: _ => true
  | a :: as, b :: bs =>
    if a.toNat < b.toNat then true
    else if b.toNat < a.toNat then false
    else strLt as bs

/-- Reads a digit string as a natural number, most significant digit
first (the usual positional fold). -/
def digitsToNat (ds : List Char) : Nat :=
  ds.foldl (fun n c => 10 * n + (c.toNat - 48)) 0

/-! ### JS numbers

The values `parseFloat` and the sort comparator produce are JS floats:
NaN, the two infinities, or a finite value (modelled exactly over `ℚ`).
-/

/-- A JS number: NaN, an infinity, or a finite value. -/
inductive JsNum
  | nan
  | posInf
  | negInf
  | finite (q : ℚ)
deriving DecidableEq

/-- Numeric literals denote finite JS numbers. -/
instance (n : Nat) : OfNat JsNum n := ⟨JsNum.finite (n : ℚ)⟩

/-- JS unary minus on the values `parseFloat` can produce. -/
def JsNum.neg : JsNum → JsNum
  | JsNum.nan => JsNum.nan
  | JsNum.posInf => JsNum.negInf
  | JsNum.negInf => JsNum.posInf
  | JsNum.finite q => JsNum.finite (-q)

/-- JS subtraction on the values the comparator subtracts:
`Infinity - Infinity` is NaN, an infinity dominates a finite value, and
NaN propagates. -/
def JsNum.sub : JsNum → JsNum → JsNum
  | JsNum.nan, _ => JsNum.nan
  | _, JsNum.nan => JsNum.nan
  | JsNum.posInf, JsNum.posInf => JsNum.nan
  | JsNum.posInf, _ => JsNum.posInf
  | JsNum.negInf, JsNum.negInf => JsNum.nan
  | JsNum.negInf, _ => JsNum.negInf
  | JsNum.finite _, JsNum.posInf => JsNum.negInf
  | JsNum.finite _, JsNum.negInf => JsNum.posInf
  | JsNum.finite a, JsNum.finite b => JsNum.finite (a - b)

/-- Whether a comparator value keeps the compared pair in its current
order: `Array.prototype.sort` moves `b` before `a` only when
`cmp(a,b) > 0`; NaN and nonpositive values leave the order unchanged
(ES2023 sort-compare semantics). -/
def JsNum.nonpos : JsNum → Bool
  | JsNum.nan => true
  | JsNum.posInf => false
  | JsNum.negInf => true
  | JsNum.finite q => decide (q ≤ 0)

/-! ### parseAmount (`src/app/page.tsx` lines 46–50; identical in both
other variants)

```js
const parseAmount = (amountStr) => {
  const cleanedAmount = amountStr.replace(/[,.]/g, "");
  return parseFloat(cleanedAmount) || 0;
};
``` -/

/-- JS `amountStr.replace(/[,.]/g, "")`: delete every `.` and `,`. -/
def cleanAmount (l : List Char) : List Char :=
  l.filter (fun c => !(c = '.' || c = ','))

/-- The JS `Infinity` literal recognized by `parseFloat`. -/
def infinityStr : List Char := ("Infinity").toList

/-- Exponent part of a JS float literal: `e`/`E`, optional sign, digits.
An incomplete exponent contributes nothing (JS keeps the longest valid
prefix of the literal). -/
def parseExp (l : List Char) : Int :=
  match l with
  | [] => 0
  | c :: rest =>
    if c = 'e' || c = 'E' then
      match rest with
      | '+' :: r2 =>
        let ds := r2.takeWhile Char.isDigit
        if ds.isEmpty then 0 else (digitsToNat ds : Int)
      | '-' :: r2 =>
        let ds := r2.takeWhile Char.isDigit
        if ds.isEmpty then 0 else -(digitsToNat ds : Int)
      | _ =>
        let ds := rest.takeWhile Char.isDigit
        if ds.isEmpty then 0 else (digitsToNat ds : Int)
    else 0

/-- Unsigned part of JS `parseFloat`: the `Infinity` literal, or digits
with optional fraction and exponent; NaN when neither is present. -/
def parseUnsigned (l : List Char) : JsNum :=
  if isPrefixList infinityStr l then JsNum.posInf
  else
    match l.dropWhile Char.isDigit with
    | '.' :: r2 =>
      if (l.takeWhile Char.isDigit).isEmpty && (r2.takeWhile Char.isDigit).isEmpty then JsNum.nan
      else JsNum.finite (((digitsToNat (l.takeWhile Char.isDigit) : ℚ)
                    + (digitsToNat (r2.takeWhile Char.isDigit) : ℚ)
                        / (10 : ℚ) ^ (r2.takeWhile Char.isDigit).length)
                   * (10 : ℚ) ^ parseExp (r2.dropWhile Char.isDigit))
    | rest =>
      if (l.takeWhile Char.isDigit).isEmpty then JsNum.nan
      else JsNum.finite ((digitsToNat (l.takeWhile Char.isDigit) : ℚ)
                   * (10 : ℚ) ^ parseExp rest)

/-- JS `parseFloat`: skip leading whitespace, optional sign, then the
longest valid prefix that is the `Infinity` literal or a decimal
literal; NaN when there is none. -/
def jsParseFloat (l : List Char) : JsNum :=
  match l.dropWhile Char.isWhitespace with
  | '-' :: r => (parseUnsigned r).neg
  | '+' :: r => parseUnsigned r
  | l1 => parseUnsigned l1

/-- `parseAmount` from the source: strip `.`/`,`, `parseFloat`, and
`|| 0` (which sends the falsy numbers NaN and `±0` to `0` and keeps
every other value, infinities included). -/
def parseAmount (l : List Char) : JsNum :=
  match jsParseFloat (cleanAmount l) with
  | JsNum.nan => JsNum.finite 0
  | JsNum.finite q => if q = 0 then JsNum.finite 0 else JsNum.finite q
  | JsNum.posInf => JsNum.posInf
  | JsNum.negInf => JsNum.negInf

/-- Modelled from the spec (§3, the `amount` invariant): strip `.`/`,`
and read the remainder as an integer when it is wholly made of digits;
any non-numeric residue yields zero.  Used to compare the spec's reading
of `parseAmount` against the source's. -/
def parseAmountSpec (l : List Char) : JsNum :=
  if !(cleanAmount l).isEmpty && (cleanAmount l).all Char.isDigit
  then JsNum.finite (digitsToNat (cleanAmount l) : ℚ) else JsNum.finite 0

/-! ### Data model (the `Transaction` interface, all variants) -/

/-- One transaction record: four string fields. -/
structure Transaction where
  date : List Char
  amount : List Char
  details : List Char
  transaction_code : List Char
deriving DecidableEq

/-- JS `Object.values(transaction)` in field-declaration order. -/
def txValues (t : Transaction) : List (List Char) :=
  [t.date, t.amount, t.details, t.transaction_code]

/-- Sortable field names (`keyof Transaction`). -/
inductive SortKey
  | date
  | amount
  | details
  | transaction_code
deriving DecidableEq

/-- The `sortConfig` state: a key and a direction string. -/
structure SortConfig where
  key : SortKey
  direction : List Char
deriving DecidableEq

/-- The direction string the source compares against. -/
def ascendingStr : List Char := ("ascending").toList

/-- The other direction string `handleSort` produces. -/
def descendingStr : List Char := ("descending").toList

/-- Field projection used by the generic branch of the comparator. -/
def getField : SortKey → Transaction → List Char
  | SortKey.date, t => t.date
  | SortKey.amount, t => t.amount
  | SortKey.details, t => t.details
  | SortKey.transaction_code, t => t.transaction_code

/-- String branch of the source comparator:
`if (a[key] < b[key]) return asc ? -1 : 1; if (a[key] > b[key]) return
asc ? 1 : -1; return 0`. -/
def strCmpQ (asc : Bool) (x y : List Char) : ℚ :=
  if strLt x y then (if asc then -1 else 1)
  else if strLt y x then (if asc then 1 else -1)
  else 0

/-- The sort comparator of `sortedTransactions`
(`src/app/page.tsx` lines 52–68): `null` config compares everything
equal; the `amount` key compares parsed values; other keys compare the
field strings. -/
def cmpTx : Option SortConfig → Transaction → Transaction → JsNum
  | none, _, _ => JsNum.finite 0
  | some c, a, b =>
    match c.key with
    | SortKey.amount =>
      if c.direction = ascendingStr
      then JsNum.sub (parseAmount a.amount) (parseAmount b.amount)
      else JsNum.sub (parseAmount b.amount) (parseAmount a.amount)
    | k => JsNum.finite (strCmpQ (c.direction = ascendingStr) (getField k a) (getField k b))

/-- `[...transactions].sort(cmp)`: stable sort by the comparator,
modelled as insertion sort over the relation that keeps `a` before `b`
unless `cmp a b > 0` (ES2023 sort-compare: NaN and nonpositive results
leave the order unchanged). -/
def sortedTransactions (cfg : Option SortConfig) (l : List Transaction) : List Transaction :=
  List.insertionSort (fun a b => (cmpTx cfg a b).nonpos = true) l

/-! ### Filtering -/

/-- Match test of the `length ≥ 3` branch of the filter
(`src/app/page.tsx` lines 74–76): some field value, lower-cased,
contains the lower-cased search string. -/
def fieldMatch (low : Char → List Char) (s : List Char) (t : Transaction) : Bool :=
  (txValues t).any (fun v => jsIncludes (v.flatMap low) (s.flatMap low))

/-- Filter predicate of `filteredTransactions`
(`src/app/page.tsx` lines 70–77): searches shorter than 3 characters
pass everything. -/
def filterPass (low : Char → List Char) (s : List Char) (t : Transaction) : Bool :=
  if s.length < 3 then true
  else fieldMatch low s t

/-- `filteredTransactions` (`src/app/page.tsx` lines 70–77; identical
in `part_001`): the sorted list filtered by `filterPass`. -/
def filteredTransactions (low : Char → List Char) (cfg : Option SortConfig)
    (s : List Char) (l : List Transaction) : List Transaction :=
  (sortedTransactions cfg l).filter (filterPass low s)

/-- `normalizeString` from the debounced variant
(`src/unnamed/part_000` lines 54–58): NFD-decompose, strip combining
marks U+0300–U+036F, lower-case. -/
def normalizeString (nfd low : Char → List Char) (str : List Char) : List Char :=
  (((str.flatMap nfd).filter
      (fun c => !(0x300 ≤ c.toNat && c.toNat ≤ 0x36f))).flatMap low)

/-- Match test of `fetchData` in the debounced variant
(`src/unnamed/part_000` lines 39–43): some normalized field value
contains the normalized search string — with no length threshold. -/
def normMatch (nfd low : Char → List Char) (s : List Char) (t : Transaction) : Bool :=
  (txValues t).any (fun v => jsIncludes (normalizeString nfd low v) (normalizeString nfd low s))

/-- The record list `fetchData` stores after a fetch: the fetched data
filtered by `normMatch` against the search argument. -/
def fetchFiltered (nfd low : Char → List Char) (s : List Char)
    (data : List Transaction) : List Transaction :=
  data.filter (normMatch nfd low s)

/-! ### Pagination (`src/app/page.tsx` lines 79–86) -/

/-- JS `arr.slice(i, j)` for `0 ≤ i ≤ j`. -/
def jsSlice (i j : Nat) (l : List Transaction) : List Transaction :=
  (l.drop i).take (j - i)

/-- `currentTransactions`: the slice
`[currentPage*itemsPerPage - itemsPerPage, currentPage*itemsPerPage)`
of a record list. -/
def currentSlice (cp ipp : Nat) (l : List Transaction) : List Transaction :=
  jsSlice (cp * ipp - ipp) (cp * ipp) l

/-- The visible page computed by `src/app/page.tsx`: sort, then filter,
then slice. -/
def currentTransactions (low : Char → List Char) (cfg : Option SortConfig)
    (s : List Char) (cp ipp : Nat) (l : List Transaction) : List Transaction :=
  currentSlice cp ipp (filteredTransactions low cfg s l)

/-- Modelled from the spec (§2 control flow, §4.1): the pipeline in the
order filter → stable sort → paginate, with the visible slice
`records[(N-1)·P : N·P]`.  Second definition for the refinement claim;
compared against `currentTransactions`. -/
def specPipeline (low : Char → List Char) (cfg : Option SortConfig)
    (s : List Char) (cp ipp : Nat) (l : List Transaction) : List Transaction :=
  jsSlice ((cp - 1) * ipp) (cp * ipp)
    (sortedTransactions cfg (l.filter (filterPass low s)))

/-- `totalPages = Math.ceil(filteredTransactions.length / itemsPerPage)`
(`src/app/page.tsx` line 83; `part_000` line 103 uses the same formula
on its already-filtered list). -/
def totalPages (c p : Nat) : Nat :=
  (⌈(c : ℚ) / (p : ℚ)⌉).toNat

/-- `startPage = Math.max(1, currentPage - Math.floor(5 / 2))`. -/
def startPage (cp : Nat) : Nat :=
  max 1 (cp - 5 / 2)

/-- `endPage = Math.min(totalPages, startPage + 5 - 1)`. -/
def endPage (tp cp : Nat) : Nat :=
  min tp (startPage cp + 5 - 1)

/-- Number of numbered page buttons rendered:
`Array.from({length: endPage - startPage + 1})`, with a negative length
coerced to `0` (the subtraction is done on JS numbers, hence over `ℤ`). -/
def numPageButtons (tp cp : Nat) : Nat :=
  ((endPage tp cp : Int) - (startPage cp : Int) + 1).toNat

/-! ### Component state and event handlers -/

/-- The component state of `src/app/page.tsx` / `part_001` that the
pipeline and the search handler read or write (display-only state such
as `goToPage` and `isHydrated` is omitted). -/
structure PageState where
  transactions : List Transaction
  currentPage : Nat
  itemsPerPage : Nat
  searchTerm : List Char
  sortConfig : Option SortConfig
deriving DecidableEq

/-- The search input's `onChange` handler in `src/app/page.tsx`
line 106 (and `part_001` line 106): `setSearchTerm(e.target.value)` and
nothing else. -/
def setSearchTermHandler (v : List Char) (st : PageState) : PageState :=
  { st with searchTerm := v }

/-- The component state of the debounced variant (`part_000`). -/
structure DebState where
  transactions : List Transaction
  newTransactions : List Transaction
  currentPage : Nat
  itemsPerPage : Nat
  searchTerm : List Char
  sortConfig : Option SortConfig
  isLoading : Bool
deriving DecidableEq

/-- The synchronous state effect of `handleSearch` in `part_000`
lines 61–65: set the search term, start the fetch (`isLoading` goes
true; its asynchronous completion is `fetchFiltered`), reset the page
to 1.  The 500 ms debounce delays the call but not its effect. -/
def handleSearch (v : List Char) (st : DebState) : DebState :=
  { st with searchTerm := v, isLoading := true, currentPage := 1 }

/-! ### Array store model for the frame claim

JS arrays are heap objects; `Heap` is a store of arrays addressed by
allocation order, so that the copy made by `[...transactions]`, the
in-place `.sort()` on that copy, and the fresh arrays returned by
`.filter`/`.slice` can be distinguished from the state array itself. -/

/-- A store of arrays; cell `i` holds the `i`-th allocated array. -/
abbrev Heap : Type := List (List Transaction)

/-- Reads cell `i` (out-of-range reads return the empty array; the
pipeline only reads live cells). -/
def readH (h : Heap) (i : Nat) : List Transaction :=
  List.getD h i []

/-- The render-time pipeline of `src/app/page.tsx` lines 52–81 acting
on the store: `[...transactions]` allocates a copy, `.sort(cmp)`
mutates that copy in place, `.filter(...)` and `.slice(...)` allocate
fresh arrays.  Returns the final store and the address of the visible
slice. -/
def pipelineH (low : Char → List Char) (cfg : Option SortConfig) (s : List Char)
    (cp ipp : Nat) (h : Heap) (txRef : Nat) : Heap × Nat :=
  let copyRef := List.length h
  let h1 : Heap := h ++ [readH h txRef]
  let h2 : Heap := List.set h1 copyRef (sortedTransactions cfg (readH h1 copyRef))
  let fRef := List.length h2
  let h3 : Heap := h2 ++ [(readH h2 copyRef).filter (filterPass low s)]
  let outRef := List.length h3
  let h4 : Heap := h3 ++ [currentSlice cp ipp (readH h3 fRef)]
  (h4, outRef)

/-! ### Concrete fixtures for counterexamples and witnesses -/

/-- Identity decomposition: a character already in NFD form. -/
def nfd0 : Char → List Char := fun c => [c]

/-- ASCII lower-casing as a per-character expansion. -/
def low0 : Char → List Char := fun c => [c.toLower]

/-- A record none of whose fields contains the substring `ab`. -/
def tx0 : Transaction :=
  { date := ("2024-09-10").toList
  , amount := ("5.000").toList
  , details := ("xyz").toList
  , transaction_code := ("5213").toList }

/-- A second record, with a different amount. -/
def tx1 : Transaction :=
  { date := ("2024-09-11").toList
  , amount := ("20.000").toList
  , details := ("abc ung ho").toList
  , transaction_code := ("5214").toList }

/-- A two-character search string. -/
def abL : List Char := ("ab").toList

/-- A three-character search string. -/
def abcL : List Char := ("abc").toList

/-- The first example amount string of the spec (§8). -/
def amt1L : List Char := ("1.234.567").toList

/-- The second example amount string of the spec (§8). -/
def abcAmtL : List Char := ("abc").toList

/-- An amount string with a digit prefix and non-numeric residue. -/
def mixedAmtL : List Char := ("123a").toList

/-- The amount string that is the JS Infinity literal. -/
def infinityAmtL : List Char := ("Infinity").toList

/-- A concrete page state sitting on page 2. -/
def st0 : PageState :=
  { transactions := [], currentPage := 2, itemsPerPage := 10
  , searchTerm := [], sortConfig := none }

/-- A concrete 95-record list. -/
def mk95 : List Transaction := List.replicate 95 tx0

/-! ### Helper lemmas: the parser on digit strings -/

theorem takeWhile_eq_self_of_all {p : Char → Bool} :
    ∀ {l : List Char}, (∀ c ∈ l, p c = true) → l.takeWhile p = l := by
  intro l
  induction l with
  | nil => intro _; rfl
  | cons c t ih =>
    intro h
    rw [List.takeWhile_cons, if_pos (h c (List.mem_cons_self c t))]
    rw [ih (fun d hd => h d (List.mem_cons_of_mem c hd))]

theorem dropWhile_eq_nil_of_all {p : Char → Bool} :
    ∀ {l : List Char}, (∀ c ∈ l, p c = true) → l.dropWhile p = [] := by
  intro l
  induction l with
  | nil => intro _; rfl
  | cons c t ih =>
    intro h
    rw [List.dropWhile_cons, if_pos (h c (List.mem_cons_self c t))]
    exact ih (fun d hd => h d (List.mem_cons_of_mem c hd))

theorem digit_not_ws {c : Char} (h : c.isDigit = true) : c.isWhitespace = false := by
  revert h
  simp only [Char.isDigit, Char.isWhitespace]
  intro h
  have h0 : ('0' : Char) ≤ c := by
    rcases Bool.and_eq_true_iff.mp h with ⟨h1, _⟩
    exact of_decide_eq_true h1
  have h2 : ('0' : Char).val ≤ c.val := h0
  simp only [Bool.or_eq_false_iff, decide_eq_false_iff_not]
  refine ⟨⟨⟨?_, ?_⟩, ?_⟩, ?_⟩ <;>
    (intro hc; subst hc; exact absurd h2 (by decide))

theorem digit_ne_minus {c : Char} (h : c.isDigit = true) : c ≠ '-' := by
  intro hc; subst hc; exact absurd h (by decide)

theorem digit_ne_plus {c : Char} (h : c.isDigit = true) : c ≠ '+' := by
  intro hc; subst hc; exact absurd h (by decide)

theorem digit_ne_I {c : Char} (h : c.isDigit = true) : c ≠ 'I' := by
  intro hc; subst hc; exact absurd h (by decide)

theorem infinity_prefix_false_head {c : Char} (t : List Char) (hc : c ≠ 'I') :
    isPrefixList infinityStr (c :: t) = false := by
  have e : infinityStr = 'I' :: ('n' :: 'f' :: 'i' :: 'n' :: 'i' :: 't' :: 'y' :: []) := by
    decide
  rw [e]
  simp [isPrefixList, Ne.symm hc]

theorem jsParseFloat_all_digits {l : List Char} (h1 : l ≠ [])
    (h2 : ∀ c ∈ l, c.isDigit = true) :
    jsParseFloat l = JsNum.finite ((digitsToNat l : ℚ)) := by
  obtain ⟨c, t, rfl⟩ := List.exists_cons_of_ne_nil h1
  have hc : c.isDigit = true := h2 c (List.mem_cons_self c t)
  have hws : List.dropWhile Char.isWhitespace (c :: t) = c :: t := by
    rw [List.dropWhile_cons, if_neg]
    rw [digit_not_ws hc]
    exact Bool.false_ne_true
  have hunz : parseUnsigned (c :: t) = JsNum.finite ((digitsToNat (c :: t) : ℚ)) := by
    unfold parseUnsigned
    rw [infinity_prefix_false_head t (digit_ne_I hc)]
    simp only [Bool.false_eq_true, if_false]
    rw [takeWhile_eq_self_of_all h2, dropWhile_eq_nil_of_all h2]
    simp only [List.isEmpty_cons, Bool.false_eq_true, if_false, parseExp, zpow_zero, mul_one]
  unfold jsParseFloat
  rw [hws]
  split
  · next r heq =>
    rw [List.cons.injEq] at heq
    exact absurd heq.1 (digit_ne_minus hc)
  · next r heq =>
    rw [List.cons.injEq] at heq
    exact absurd heq.1 (digit_ne_plus hc)
  · exact hunz

theorem takeWhile_eq_nil_of_none {p : Char → Bool} :
    ∀ {l : List Char}, (∀ c ∈ l, p c = false) → l.takeWhile p = [] := by
  intro l
  cases l with
  | nil => intro _; rfl
  | cons c t =>
    intro h
    rw [List.takeWhile_cons, if_neg]
    rw [h c (List.mem_cons_self c t)]
    exact Bool.false_ne_true

theorem dropWhile_eq_self_of_none {p : Char → Bool} :
    ∀ {l : List Char}, (∀ c ∈ l, p c = false) → l.dropWhile p = l := by
  intro l
  cases l with
  | nil => intro _; rfl
  | cons c t =>
    intro h
    rw [List.dropWhile_cons, if_neg]
    rw [h c (List.mem_cons_self c t)]
    exact Bool.false_ne_true

theorem parseUnsigned_no_digits {l : List Char} (hdot : '.' ∉ l) (hI : 'I' ∉ l)
    (h : ∀ c ∈ l, c.isDigit = false) : parseUnsigned l = JsNum.nan := by
  have hpre : isPrefixList infinityStr l = false := by
    cases l with
    | nil => decide
    | cons c t =>
      exact infinity_prefix_false_head t
        (fun he => hI (List.mem_cons.mpr (Or.inl he.symm)))
  unfold parseUnsigned
  rw [hpre]
  simp only [Bool.false_eq_true, if_false]
  rw [takeWhile_eq_nil_of_none h, dropWhile_eq_self_of_none h]
  split
  · next x r2 =>
    exact absurd (List.mem_cons_self '.' r2) hdot
  · simp

theorem mem_of_mem_dropWhile {p : Char → Bool} {c : Char} {l : List Char}
    (h : c ∈ l.dropWhile p) : c ∈ l :=
  (List.dropWhile_sublist p).subset h

theorem jsParseFloat_no_digits {l : List Char} (hdot : '.' ∉ l) (hI : 'I' ∉ l)
    (h : ∀ c ∈ l, c.isDigit = false) : jsParseFloat l = JsNum.nan := by
  have hdot1 : '.' ∉ l.dropWhile Char.isWhitespace :=
    fun hm => hdot (mem_of_mem_dropWhile hm)
  have hI1 : 'I' ∉ l.dropWhile Char.isWhitespace :=
    fun hm => hI (mem_of_mem_dropWhile hm)
  have h1 : ∀ c ∈ l.dropWhile Char.isWhitespace, c.isDigit = false :=
    fun c hc => h c (mem_of_mem_dropWhile hc)
  unfold jsParseFloat
  split
  · next r heq =>
    have hdr : '.' ∉ r := fun hm => hdot1 (heq ▸ List.mem_cons_of_mem '-' hm)
    have hIr : 'I' ∉ r := fun hm => hI1 (heq ▸ List.mem_cons_of_mem '-' hm)
    have hr : ∀ c ∈ r, c.isDigit = false :=
      fun c hc => h1 c (heq ▸ List.mem_cons_of_mem '-' hc)
    rw [parseUnsigned_no_digits hdr hIr hr]
    rfl
  · next r heq =>
    have hdr : '.' ∉ r := fun hm => hdot1 (heq ▸ List.mem_cons_of_mem '+' hm)
    have hIr : 'I' ∉ r := fun hm => hI1 (heq ▸ List.mem_cons_of_mem '+' hm)
    have hr : ∀ c ∈ r, c.isDigit = false :=
      fun c hc => h1 c (heq ▸ List.mem_cons_of_mem '+' hc)
    exact parseUnsigned_no_digits hdr hIr hr
  · next heq1 heq2 =>
    exact parseUnsigned_no_digits hdot1 hI1 h1

theorem dot_not_mem_cleanAmount (l : List Char) : '.' ∉ cleanAmount l := by
  intro hm
  have := (List.mem_filter.mp hm).2
  simp at this

theorem parseAmount_all_digits {l : List Char} (h1 : cleanAmount l ≠ [])
    (h2 : ∀ c ∈ cleanAmount l, c.isDigit = true) :
    parseAmount l = JsNum.finite (digitsToNat (cleanAmount l) : ℚ) := by
  unfold parseAmount
  rw [jsParseFloat_all_digits h1 h2]
  by_cases hz : (digitsToNat (cleanAmount l) : ℚ) = 0
  · show (if (digitsToNat (cleanAmount l) : ℚ) = 0 then JsNum.finite 0 else _) = _
    rw [if_pos hz, hz]
  · show (if (digitsToNat (cleanAmount l) : ℚ) = 0 then JsNum.finite 0 else _) = _
    rw [if_neg hz]

theorem parseAmount_no_digits {l : List Char} (hI : 'I' ∉ cleanAmount l)
    (h : ∀ c ∈ cleanAmount l, c.isDigit = false) : parseAmount l = JsNum.finite 0 := by
  unfold parseAmount
  rw [jsParseFloat_no_digits (dot_not_mem_cleanAmount l) hI h]

theorem takeWhile_append_eq {p : Char → Bool} {c : Char} :
    ∀ {ds : List Char} {t : List Char}, (∀ x ∈ ds, p x = true) → p c = false →
      (ds ++ c :: t).takeWhile p = ds := by
  intro ds
  induction ds with
  | nil =>
    intro t _ hc
    rw [List.nil_append, List.takeWhile_cons, if_neg]
    rw [hc]
    exact Bool.false_ne_true
  | cons d ds ih =>
    intro t h hc
    rw [List.cons_append, List.takeWhile_cons, if_pos (h d (List.mem_cons_self d ds)),
      ih (fun x hx => h x (List.mem_cons_of_mem d hx)) hc]

theorem dropWhile_append_eq {p : Char → Bool} {c : Char} :
    ∀ {ds : List Char} {t : List Char}, (∀ x ∈ ds, p x = true) → p c = false →
      (ds ++ c :: t).dropWhile p = c :: t := by
  intro ds
  induction ds with
  | nil =>
    intro t _ hc
    rw [List.nil_append, List.dropWhile_cons, if_neg]
    rw [hc]
    exact Bool.false_ne_true
  | cons d ds ih =>
    intro t h hc
    rw [List.cons_append, List.dropWhile_cons, if_pos (h d (List.mem_cons_self d ds))]
    exact ih (fun x hx => h x (List.mem_cons_of_mem d hx)) hc

theorem parseExp_not_e {r0 : Char} {rr : List Char} (h9 : r0 ≠ 'e') (h10 : r0 ≠ 'E') :
    parseExp (r0 :: rr) = 0 := by
  simp [parseExp, h9, h10]

theorem parseAmount_digit_run {l ds : List Char} {r0 : Char} {rr : List Char}
    (hsplit : cleanAmount l = ds ++ r0 :: rr) (hne : ds ≠ [])
    (hds : ∀ c ∈ ds, c.isDigit = true) (hr0 : r0.isDigit = false)
    (h9 : r0 ≠ 'e') (h10 : r0 ≠ 'E') :
    parseAmount l = JsNum.finite (digitsToNat ds : ℚ) := by
  obtain ⟨d0, ds2, rfl⟩ := List.exists_cons_of_ne_nil hne
  have hd0 : d0.isDigit = true := hds d0 (List.mem_cons_self d0 ds2)
  have hr0dot : r0 ≠ '.' := by
    intro he
    apply dot_not_mem_cleanAmount l
    rw [hsplit, ← he]
    exact List.mem_append.mpr (Or.inr (List.mem_cons_self r0 rr))
  have key : jsParseFloat ((d0 :: ds2) ++ r0 :: rr)
      = JsNum.finite ((digitsToNat (d0 :: ds2) : ℚ)) := by
    have hws : List.dropWhile Char.isWhitespace (d0 :: (ds2 ++ r0 :: rr))
        = d0 :: (ds2 ++ r0 :: rr) := by
      rw [List.dropWhile_cons, if_neg]
      rw [digit_not_ws hd0]
      exact Bool.false_ne_true
    unfold jsParseFloat
    rw [List.cons_append, hws]
    split
    · next r heq =>
      rw [List.cons.injEq] at heq
      exact absurd heq.1 (digit_ne_minus hd0)
    · next r heq =>
      rw [List.cons.injEq] at heq
      exact absurd heq.1 (digit_ne_plus hd0)
    · unfold parseUnsigned
      rw [infinity_prefix_false_head _ (digit_ne_I hd0)]
      simp only [Bool.false_eq_true, if_false]
      have hdw : List.dropWhile Char.isDigit (d0 :: (ds2 ++ r0 :: rr)) = r0 :: rr := by
        rw [← List.cons_append]
        exact dropWhile_append_eq hds hr0
      have htw : List.takeWhile Char.isDigit (d0 :: (ds2 ++ r0 :: rr)) = d0 :: ds2 := by
        rw [← List.cons_append]
        exact takeWhile_append_eq hds hr0
      rw [hdw, htw]
      split
      · next r2 heq =>
        rw [List.cons.injEq] at heq
        exact absurd heq.1 hr0dot
      · rw [parseExp_not_e h9 h10]
        simp only [List.isEmpty_cons, Bool.false_eq_true, if_false, zpow_zero, mul_one]
  unfold parseAmount
  rw [hsplit, key]
  by_cases hz : (digitsToNat (d0 :: ds2) : ℚ) = 0
  · show (if (digitsToNat (d0 :: ds2) : ℚ) = 0 then JsNum.finite 0 else _) = _
    rw [if_pos hz, hz]
  · show (if (digitsToNat (d0 :: ds2) : ℚ) = 0 then JsNum.finite 0 else _) = _
    rw [if_neg hz]

theorem parseAmount_ne_nan (l : List Char) : parseAmount l ≠ JsNum.nan := by
  unfold parseAmount
  split
  · simp
  · split_ifs <;> simp
  · simp
  · simp

/-! ### Helper lemmas: the lexicographic string order -/

theorem strLt_cons_true_iff {a b : Char} {as bs : List Char} :
    strLt (a :: as) (b :: bs) = true ↔
      (a.toNat < b.toNat ∨ (¬ a.toNat < b.toNat ∧ ¬ b.toNat < a.toNat ∧ strLt as bs = true)) := by
  rw [strLt]
  split_ifs with h1 h2
  all_goals simp [*]

theorem strLt_cons_false_iff {a b : Char} {as bs : List Char} :
    strLt (a :: as) (b :: bs) = false ↔
      (¬ a.toNat < b.toNat ∧ (b.toNat < a.toNat ∨ strLt as bs = false)) := by
  rw [strLt]
  split_ifs with h1 h2
  all_goals simp [*]

theorem strLt_nil_cons {b : Char} {bs : List Char} : strLt [] (b :: bs) = true := rfl

theorem strLt_nil_right {x : List Char} : strLt x [] = false := by
  cases x <;> rfl

theorem strLt_asymm : ∀ {x y : List Char}, strLt x y = true → strLt y x = false := by
  intro x
  induction x with
  | nil =>
    intro y h
    cases y with
    | nil => exact strLt_nil_right
    | cons b bs => exact strLt_nil_right
  | cons a as ih =>
    intro y h
    cases y with
    | nil => rw [strLt_nil_right] at h; exact absurd h (by simp)
    | cons b bs =>
      rw [strLt_cons_true_iff] at h
      rw [strLt_cons_false_iff]
      rcases h with h | ⟨h1, h2, h3⟩
      · exact ⟨by omega, Or.inl h⟩
      · exact ⟨h2, Or.inr (ih h3)⟩

theorem strLt_negtrans : ∀ {x y z : List Char},
    strLt y x = false → strLt z y = false → strLt z x = false := by
  intro x
  induction x with
  | nil => intro y z h1 h2; exact strLt_nil_right
  | cons a as ih =>
    intro y z h1 h2
    cases y with
    | nil => rw [strLt_nil_cons] at h1; exact absurd h1 (by simp)
    | cons b bs =>
      cases z with
      | nil => rw [strLt_nil_cons] at h2; exact absurd h2 (by simp)
      | cons c cs =>
        rw [strLt_cons_false_iff] at h1 h2
        rw [strLt_cons_false_iff]
        obtain ⟨hba, h1r⟩ := h1
        obtain ⟨hcb, h2r⟩ := h2
        refine ⟨by omega, ?_⟩
        rcases h1r with hab | hbs
        · exact Or.inl (by omega)
        · rcases h2r with hbc | hcs
          · exact Or.inl (by omega)
          · exact Or.inr (ih hbs hcs)

/-! ### Helper lemmas: the comparator is a total preorder -/

theorem strLt_irr : ∀ (x : List Char), strLt x x = false := by
  intro x
  induction x with
  | nil => rfl
  | cons a as ih =>
    rw [strLt_cons_false_iff]
    exact ⟨by omega, Or.inr ih⟩

theorem strCmpQ_le_iff_asc {x y : List Char} :
    strCmpQ true x y ≤ 0 ↔ strLt y x = false := by
  unfold strCmpQ
  by_cases h1 : strLt x y = true
  · rw [if_pos h1, strLt_asymm h1]
    norm_num
  · rw [if_neg h1]
    by_cases h2 : strLt y x = true
    · rw [if_pos h2, h2]
      norm_num
    · rw [if_neg h2]
      simp only [Bool.not_eq_true] at h2
      simp [h2]

theorem strCmpQ_le_iff_desc {x y : List Char} :
    strCmpQ false x y ≤ 0 ↔ strLt x y = false := by
  unfold strCmpQ
  by_cases h1 : strLt x y = true
  · rw [if_pos h1, h1]
    simp
  · rw [if_neg h1]
    simp only [Bool.not_eq_true] at h1
    by_cases h2 : strLt y x = true
    · rw [if_pos h2]
      simp [h1]
    · rw [if_neg h2]
      simp [h1]

theorem finite_nonpos_iff {q : ℚ} : (JsNum.finite q).nonpos = true ↔ q ≤ 0 := by
  simp [JsNum.nonpos]

theorem jsle_total (x y : JsNum) :
    (JsNum.sub x y).nonpos = true ∨ (JsNum.sub y x).nonpos = true := by
  cases x <;> cases y <;> simp_all [JsNum.sub, JsNum.nonpos]
  rename_i a b
  rcases le_total a b with h | h
  · left; linarith
  · right; linarith

theorem jsle_trans (x y z : JsNum) (hx : x ≠ JsNum.nan) (hy : y ≠ JsNum.nan)
    (hz : z ≠ JsNum.nan) (h1 : (JsNum.sub x y).nonpos = true)
    (h2 : (JsNum.sub y z).nonpos = true) : (JsNum.sub x z).nonpos = true := by
  cases x <;> cases y <;> cases z <;> simp_all [JsNum.sub, JsNum.nonpos]
  linarith

theorem jsle_antisymm (x y : JsNum) (hx : x ≠ JsNum.nan) (hy : y ≠ JsNum.nan)
    (h1 : (JsNum.sub x y).nonpos = true) (h2 : (JsNum.sub y x).nonpos = true) : x = y := by
  cases x <;> cases y <;> simp_all [JsNum.sub, JsNum.nonpos]
  linarith

theorem cmpTx_some_eq (k : SortKey) (dir : List Char) (a b : Transaction) :
    cmpTx (some ⟨k, dir⟩) a b =
      match k with
      | SortKey.amount =>
        if dir = ascendingStr
        then JsNum.sub (parseAmount a.amount) (parseAmount b.amount)
        else JsNum.sub (parseAmount b.amount) (parseAmount a.amount)
      | k => JsNum.finite (strCmpQ (decide (dir = ascendingStr)) (getField k a) (getField k b)) := rfl

theorem cmpTx_char (cfg : Option SortConfig) :
    (∀ a b, (cmpTx cfg a b).nonpos = true)
    ∨ (∀ a b, cmpTx cfg a b = JsNum.sub (parseAmount a.amount) (parseAmount b.amount))
    ∨ (∀ a b, cmpTx cfg a b = JsNum.sub (parseAmount b.amount) (parseAmount a.amount))
    ∨ (∃ k, ∀ a b, ((cmpTx cfg a b).nonpos = true ↔ strLt (getField k b) (getField k a) = false))
    ∨ (∃ k, ∀ a b, ((cmpTx cfg a b).nonpos = true ↔ strLt (getField k a) (getField k b) = false)) := by
  cases cfg with
  | none => exact Or.inl (fun a b => by simp [cmpTx, JsNum.nonpos])
  | some c =>
    obtain ⟨k, dir⟩ := c
    by_cases hd : dir = ascendingStr
    · cases k with
      | amount =>
        refine Or.inr (Or.inl (fun a b => ?_))
        rw [cmpTx_some_eq]
        exact if_pos hd
      | date =>
        refine Or.inr (Or.inr (Or.inr (Or.inl ⟨SortKey.date, fun a b => ?_⟩)))
        rw [cmpTx_some_eq]
        simp [hd, JsNum.nonpos, strCmpQ_le_iff_asc]
      | details =>
        refine Or.inr (Or.inr (Or.inr (Or.inl ⟨SortKey.details, fun a b => ?_⟩)))
        rw [cmpTx_some_eq]
        simp [hd, JsNum.nonpos, strCmpQ_le_iff_asc]
      | transaction_code =>
        refine Or.inr (Or.inr (Or.inr (Or.inl ⟨SortKey.transaction_code, fun a b => ?_⟩)))
        rw [cmpTx_some_eq]
        simp [hd, JsNum.nonpos, strCmpQ_le_iff_asc]
    · cases k with
      | amount =>
        refine Or.inr (Or.inr (Or.inl (fun a b => ?_)))
        rw [cmpTx_some_eq]
        exact if_neg hd
      | date =>
        refine Or.inr (Or.inr (Or.inr (Or.inr ⟨SortKey.date, fun a b => ?_⟩)))
        rw [cmpTx_some_eq]
        simp [hd, JsNum.nonpos, strCmpQ_le_iff_desc]
      | details =>
        refine Or.inr (Or.inr (Or.inr (Or.inr ⟨SortKey.details, fun a b => ?_⟩)))
        rw [cmpTx_some_eq]
        simp [hd, JsNum.nonpos, strCmpQ_le_iff_desc]
      | transaction_code =>
        refine Or.inr (Or.inr (Or.inr (Or.inr ⟨SortKey.transaction_code, fun a b => ?_⟩)))
        rw [cmpTx_some_eq]
        simp [hd, JsNum.nonpos, strCmpQ_le_iff_desc]

theorem cmpTx_total (cfg : Option SortConfig) (a b : Transaction) :
    (cmpTx cfg a b).nonpos = true ∨ (cmpTx cfg b a).nonpos = true := by
  rcases cmpTx_char cfg with h | h | h | ⟨k, h⟩ | ⟨k, h⟩
  · exact Or.inl (h a b)
  · rw [h a b, h b a]; exact jsle_total _ _
  · rw [h a b, h b a]; exact jsle_total _ _
  · rw [h a b, h b a]
    rcases hx : strLt (getField k b) (getField k a) with _ | _
    · exact Or.inl rfl
    · exact Or.inr (strLt_asymm hx)
  · rw [h a b, h b a]
    rcases hx : strLt (getField k a) (getField k b) with _ | _
    · exact Or.inl rfl
    · exact Or.inr (strLt_asymm hx)

theorem cmpTx_trans (cfg : Option SortConfig) (a b c : Transaction)
    (h1 : (cmpTx cfg a b).nonpos = true) (h2 : (cmpTx cfg b c).nonpos = true) :
    (cmpTx cfg a c).nonpos = true := by
  rcases cmpTx_char cfg with h | h | h | ⟨k, h⟩ | ⟨k, h⟩
  · exact h a c
  · rw [h a b] at h1; rw [h b c] at h2; rw [h a c]
    exact jsle_trans _ _ _ (parseAmount_ne_nan _) (parseAmount_ne_nan _)
      (parseAmount_ne_nan _) h1 h2
  · rw [h a b] at h1; rw [h b c] at h2; rw [h a c]
    exact jsle_trans _ _ _ (parseAmount_ne_nan _) (parseAmount_ne_nan _)
      (parseAmount_ne_nan _) h2 h1
  · rw [h a b] at h1; rw [h b c] at h2; rw [h a c]
    exact strLt_negtrans h1 h2
  · rw [h a b] at h1; rw [h b c] at h2; rw [h a c]
    exact strLt_negtrans h2 h1

/-! ### Helper lemmas: stable sort, filtering, and sorted permutations -/

theorem orderedInsert_eq_cons {α : Type} {r : α → α → Prop} [DecidableRel r]
    (x : α) : ∀ (l : List α), (∀ z ∈ l, r x z) → List.orderedInsert r x l = x :: l := by
  intro l h
  cases l with
  | nil => rfl
  | cons y t =>
    rw [List.orderedInsert, if_pos (h y (List.mem_cons_self y t))]

theorem filter_orderedInsert {α : Type} {r : α → α → Prop} [DecidableRel r]
    [IsTrans α r] (p : α → Bool) (x : α) :
    ∀ (l : List α), l.Sorted r →
      (List.orderedInsert r x l).filter p =
        if p x then List.orderedInsert r x (l.filter p) else l.filter p := by
  intro l
  induction l with
  | nil =>
    intro _
    rw [List.orderedInsert_nil]
    rcases hp : p x with _ | _ <;> simp [List.filter_cons, hp]
  | cons y t ih =>
    intro hs
    rw [List.orderedInsert]
    by_cases hxy : r x y
    · rw [if_pos hxy]
      rcases hp : p x with _ | _
      · simp only [List.filter_cons, hp, if_false, Bool.false_eq_true]
      · have hall : ∀ z ∈ (y :: t).filter p, r x z := by
          intro z hz
          rcases List.mem_cons.mp (List.mem_filter.mp hz).1 with rfl | hzt
          · exact hxy
          · exact IsTrans.trans x y z hxy (List.rel_of_sorted_cons hs z hzt)
        rw [if_pos rfl, orderedInsert_eq_cons x ((y :: t).filter p) hall]
        simp only [List.filter_cons, hp, if_pos]
    · rw [if_neg hxy]
      have ihs := ih hs.of_cons
      rcases hp : p x with _ | _ <;> rcases hpy : p y with _ | _ <;>
        rw [hp] at ihs <;>
        simp only [List.filter_cons, hpy, ihs, hp, if_true, if_false,
          Bool.false_eq_true, Bool.true_eq_false] <;>
        try rfl
      rw [List.orderedInsert, if_neg hxy]

theorem filter_insertionSort {α : Type} {r : α → α → Prop} [DecidableRel r]
    [IsTotal α r] [IsTrans α r] (p : α → Bool) :
    ∀ (l : List α), (List.insertionSort r l).filter p = List.insertionSort r (l.filter p) := by
  intro l
  induction l with
  | nil => rfl
  | cons x t ih =>
    rw [List.insertionSort,
      filter_orderedInsert p x (List.insertionSort r t) (List.sorted_insertionSort r t), ih]
    rcases hp : p x with _ | _
    · simp only [List.filter_cons, hp, if_false, Bool.false_eq_true]
    · simp only [List.filter_cons, hp, if_true, List.insertionSort]

theorem eq_of_perm_of_pairwise {α : Type} {r : α → α → Prop}
    (hasymm : ∀ a b, r a b → ¬ r b a) :
    ∀ {l₁ l₂ : List α}, l₁.Perm l₂ → l₁.Pairwise r → l₂.Pairwise r → l₁ = l₂ := by
  intro l₁
  induction l₁ with
  | nil =>
    intro l₂ hp _ _
    exact hp.nil_eq
  | cons a t ih =>
    intro l₂ hp h₁ h₂
    cases l₂ with
    | nil => exact absurd hp.symm (by simp)
    | cons b t₂ =>
      by_cases hab : a = b
      · subst hab
        rw [ih (hp.cons_inv) (List.pairwise_cons.mp h₁).2 (List.pairwise_cons.mp h₂).2]
      · exfalso
        have ha2 : a ∈ t₂ := by
          have := hp.mem_iff.mp (List.mem_cons_self a t)
          exact (List.mem_cons.mp this).resolve_left hab
        have hb1 : b ∈ t := by
          have := hp.mem_iff.mpr (List.mem_cons_self b t₂)
          exact (List.mem_cons.mp this).resolve_left (fun h => hab h.symm)
        exact hasymm a b ((List.pairwise_cons.mp h₁).1 b hb1)
          ((List.pairwise_cons.mp h₂).1 a ha2)

/-! ### Helper lemmas: pagination arithmetic -/

theorem totalPages_cast (c p : Nat) :
    ((totalPages c p : ℚ)) = ((⌈(c : ℚ) / (p : ℚ)⌉ : ℤ) : ℚ) := by
  have hq0 : (0 : ℚ) ≤ (c : ℚ) / (p : ℚ) := by positivity
  have ht0 : 0 ≤ ⌈(c : ℚ) / (p : ℚ)⌉ := Int.ceil_nonneg hq0
  unfold totalPages
  rw [← Int.toNat_of_nonneg ht0]
  push_cast
  rfl

theorem totalPages_bounds (c p : Nat) (hp : 1 ≤ p) :
    c ≤ totalPages c p * p ∧ totalPages c p * p < c + p := by
  have hp0 : (0 : ℚ) < (p : ℚ) := by exact_mod_cast Nat.lt_of_lt_of_le Nat.zero_lt_one hp
  constructor
  · have g1 : (c : ℚ) ≤ (totalPages c p : ℚ) * p := by
      rw [totalPages_cast]
      exact (div_le_iff₀ hp0).mp (Int.le_ceil ((c : ℚ) / (p : ℚ)))
    exact_mod_cast g1
  · have h3 : ((⌈(c : ℚ) / (p : ℚ)⌉ : ℤ) : ℚ) < (c : ℚ) / (p : ℚ) + 1 :=
      Int.ceil_lt_add_one ((c : ℚ) / (p : ℚ))
    have h4 : (c : ℚ) / (p : ℚ) * p = (c : ℚ) := div_mul_cancel₀ _ (ne_of_gt hp0)
    have g2 : (totalPages c p : ℚ) * p < (c : ℚ) + p := by
      rw [totalPages_cast]
      calc ((⌈(c : ℚ) / (p : ℚ)⌉ : ℤ) : ℚ) * p
          < ((c : ℚ) / (p : ℚ) + 1) * p := mul_lt_mul_of_pos_right h3 hp0
        _ = (c : ℚ) + p := by rw [add_mul, one_mul, h4]
    exact_mod_cast g2

theorem totalPages_zero (p : Nat) : totalPages 0 p = 0 := by
  unfold totalPages
  norm_num

theorem totalPages_95_10 : totalPages 95 10 = 10 := by
  have h := totalPages_bounds 95 10 (by norm_num)
  omega

/-! ### Helper lemmas: heap reads -/

theorem readH_append_lt (h : Heap) (l' : Heap) (i : Nat) (hi : i < h.length) :
    readH (h ++ l') i = readH h i := by
  unfold readH
  rw [List.getD_eq_getElem?_getD, List.getD_eq_getElem?_getD,
    List.getElem?_append, if_pos hi]

theorem readH_append_len (h : Heap) (v : List Transaction) :
    readH (h ++ [v]) h.length = v := by
  unfold readH
  rw [List.getD_eq_getElem?_getD, List.getElem?_concat_length]
  rfl

theorem readH_set_ne (h : Heap) (i j : Nat) (v : List Transaction) (hne : i ≠ j) :
    readH (h.set i v) j = readH h j := by
  unfold readH
  rw [List.getD_eq_getElem?_getD, List.getD_eq_getElem?_getD, List.getElem?_set_ne hne]

theorem readH_set_len (h : Heap) (i : Nat) (v : List Transaction) (hi : i < h.length) :
    readH (h.set i v) i = v := by
  unfold readH
  rw [List.getD_eq_getElem?_getD, List.getElem?_set_self hi]
  rfl

/-! ### Further helper lemmas shared by several claims -/

theorem jsIncludes_nil (hay : List Char) : jsIncludes hay [] = true := by
  cases hay <;> rfl

theorem normalizeString_nil (nfd low : Char → List Char) :
    normalizeString nfd low [] = [] := rfl

theorem normMatch_nil_search (nfd low : Char → List Char) (t : Transaction) :
    normMatch nfd low [] t = true := by
  unfold normMatch txValues
  rw [normalizeString_nil]
  simp [jsIncludes_nil]

theorem jsNum_ofNat_eq (n : Nat) : (OfNat.ofNat n : JsNum) = JsNum.finite ((n : ℚ)) := rfl

theorem parseAmount_amt1 :
    parseAmount amt1L = JsNum.finite ((1234567 : Nat) : ℚ) := by
  have h := parseAmount_all_digits (l := amt1L) (by decide) (by decide)
  rw [h, show digitsToNat (cleanAmount amt1L) = 1234567 from by decide]

theorem parseAmount_tx0 :
    parseAmount tx0.amount = JsNum.finite ((5000 : Nat) : ℚ) := by
  have h := parseAmount_all_digits (l := tx0.amount) (by decide) (by decide)
  rw [h, show digitsToNat (cleanAmount tx0.amount) = 5000 from by decide]

theorem parseAmount_tx1 :
    parseAmount tx1.amount = JsNum.finite ((20000 : Nat) : ℚ) := by
  have h := parseAmount_all_digits (l := tx1.amount) (by decide) (by decide)
  rw [h, show digitsToNat (cleanAmount tx1.amount) = 20000 from by decide]

theorem amounts_tx0_tx1_ne : parseAmount tx0.amount ≠ parseAmount tx1.amount := by
  rw [parseAmount_tx0, parseAmount_tx1]
  simp only [ne_eq, JsNum.finite.injEq]
  norm_num

theorem parseAmount_123a : parseAmount mixedAmtL = 123 := by
  have h := @parseAmount_digit_run mixedAmtL (("123").toList) 'a' []
    (by decide) (by decide) (by decide) (by decide) (by decide) (by decide)
  rw [h, show digitsToNat (("123").toList) = 123 from by decide, jsNum_ofNat_eq]

theorem parseAmount_infinity : parseAmount infinityAmtL = JsNum.posInf := by
  decide

/-! ### Claim theorems -/

/-- C1 (counterexample): the claim says that for every search string of
length < 3 the filter passes every record in every variant, including
the debounced one.  In the debounced variant the fetch-time filter has
no length threshold: searching the 2-character string `ab` drops the
record `tx0`, so the filtered result is not the full list. -/
theorem filter_short_search_counterexample :
    abL.length < 3 ∧ ¬ (fetchFiltered nfd0 low0 abL [tx0] = [tx0]) := by
  decide

/-- C1 (amended): in the two non-debounced page variants every record
passes the filter when the search string is shorter than 3 characters,
so the filtered result is the full sorted list; in the debounced
variant the fetch-time filter applies the substring test regardless of
length, and all records pass only when the search matches every record
— in particular when the search string is empty. -/
theorem filter_short_search_amended :
    (∀ (low : Char → List Char) (cfg : Option SortConfig) (s : List Char)
        (l : List Transaction), s.length < 3 →
        filteredTransactions low cfg s l = sortedTransactions cfg l)
    ∧ (∀ (nfd low : Char → List Char) (d : List Transaction),
        fetchFiltered nfd low [] d = d) := by
  constructor
  · intro low cfg s l h
    unfold filteredTransactions
    rw [List.filter_eq_self]
    intro t _
    unfold filterPass
    rw [if_pos h]
  · intro nfd low d
    unfold fetchFiltered
    rw [List.filter_eq_self]
    intro t _
    exact normMatch_nil_search nfd low t

/-- C1 (witness): the amended claim at concrete inputs. -/
theorem filter_short_search_amended_witness :
    filteredTransactions low0 none abL [tx0] = sortedTransactions none [tx0]
    ∧ fetchFiltered nfd0 low0 [] [tx0] = [tx0] :=
  ⟨filter_short_search_amended.1 low0 none abL [tx0] (by decide),
   filter_short_search_amended.2 nfd0 low0 [tx0]⟩

/-- C2: for a search string of length ≥ 3, a record is in the filtered
result iff it is in the input list and one of its four field values,
identically normalized (lower-cased; in the debounced variant
NFD-decomposed, stripped of combining marks, lower-cased), contains the
normalized search string as a substring. -/
theorem filter_match_iff (low nfd : Char → List Char) (cfg : Option SortConfig)
    (s : List Char) (t : Transaction) (l d : List Transaction) (h : 3 ≤ s.length) :
    (t ∈ filteredTransactions low cfg s l ↔ t ∈ l ∧ fieldMatch low s t = true)
    ∧ (t ∈ fetchFiltered nfd low s d ↔ t ∈ d ∧ normMatch nfd low s t = true) := by
  constructor
  · unfold filteredTransactions sortedTransactions
    rw [List.mem_filter,
      (List.perm_insertionSort (fun a b => (cmpTx cfg a b).nonpos = true) l).mem_iff]
    have hpass : filterPass low s t = fieldMatch low s t := by
      unfold filterPass
      rw [if_neg (by omega)]
    rw [hpass]
  · unfold fetchFiltered
    rw [List.mem_filter]

/-- C2 (witness): the membership characterization at concrete inputs. -/
theorem filter_match_iff_witness :
    (tx1 ∈ filteredTransactions low0 none abcL [tx1]
        ↔ tx1 ∈ [tx1] ∧ fieldMatch low0 abcL tx1 = true)
    ∧ (tx1 ∈ fetchFiltered nfd0 low0 abcL [tx1]
        ↔ tx1 ∈ [tx1] ∧ normMatch nfd0 low0 abcL tx1 = true) :=
  filter_match_iff low0 nfd0 none abcL tx1 [tx1] [tx1] (by decide)

/-- C3 (counterexample): the claim says the page display shows a
minimum of 1 page even when the filtered list is empty.  With 0 records
and page size 10, `totalPages` is 0 and the numbered page-button window
is empty, so no page is displayed. -/
theorem totalPages_min_display_counterexample :
    totalPages 0 10 = 0 ∧ numPageButtons (totalPages 0 10) 1 = 0
    ∧ ¬ (1 ≤ numPageButtons (totalPages 0 10) 1) := by
  have h := totalPages_zero 10
  refine ⟨h, ?_, ?_⟩ <;> rw [h] <;> decide

/-- C3 (amended): for page size P ≥ 1 the computed total page count is
the ceiling of C / P — characterized by C ≤ totalPages·P < C + P — but
when C = 0 the total page count is 0 and the page-button window is
empty: there is no 1-page minimum. -/
theorem totalPages_ceil_amended (c p : Nat) (hp : 1 ≤ p) :
    (c ≤ totalPages c p * p ∧ totalPages c p * p < c + p)
    ∧ totalPages 0 p = 0
    ∧ numPageButtons (totalPages 0 p) 1 = 0 := by
  refine ⟨totalPages_bounds c p hp, totalPages_zero p, ?_⟩
  rw [totalPages_zero]
  decide

/-- C3 (witness): the amended claim at C = 95, P = 10. -/
theorem totalPages_ceil_amended_witness :
    (95 ≤ totalPages 95 10 * 10 ∧ totalPages 95 10 * 10 < 95 + 10)
    ∧ totalPages 0 10 = 0
    ∧ numPageButtons (totalPages 0 10) 1 = 0 :=
  totalPages_ceil_amended 95 10 (by decide)

/-- C4 (counterexample): the claim says changing the search term to a
3+-character string resets the page to 1 in every variant.  In
`src/app/page.tsx` (and `part_001`) the input's onChange only calls
`setSearchTerm`: from page 2, after typing `abc` the page is still 2. -/
theorem search_reset_counterexample :
    3 ≤ abcL.length ∧ (setSearchTermHandler abcL st0).currentPage = 2
    ∧ ¬ ((setSearchTermHandler abcL st0).currentPage = 1) := by
  decide

/-- C4 (amended): only the debounced variant's `handleSearch` resets
the current page to 1; in the other two variants the search input's
onChange leaves the current page unchanged. -/
theorem search_reset_amended :
    (∀ (v : List Char) (st : DebState), (handleSearch v st).currentPage = 1)
    ∧ (∀ (v : List Char) (st : PageState),
        (setSearchTermHandler v st).currentPage = st.currentPage) :=
  ⟨fun _ _ => rfl, fun _ _ => rfl⟩

/-- C7: `parseAmount("1.234.567")` returns 1234567 and
`parseAmount("abc")` returns 0, exactly as the spec's examples state. -/
theorem parseAmount_spec_examples :
    parseAmount amt1L = 1234567 ∧ parseAmount abcAmtL = 0 := by
  constructor
  · rw [parseAmount_amt1, jsNum_ofNat_eq]
  · rw [parseAmount_no_digits (l := abcAmtL) (by decide) (by decide), jsNum_ofNat_eq]
    simp

/-- C8 (counterexample): the claim says any non-numeric residue yields
zero, but `parseFloat` reads the longest numeric prefix: on the amount
string `123a` the code returns 123 while the spec's reading
(`parseAmountSpec`) returns 0. -/
theorem parseAmount_residue_counterexample :
    parseAmount mixedAmtL = 123 ∧ parseAmountSpec mixedAmtL = 0
    ∧ ¬ (parseAmount mixedAmtL = parseAmountSpec mixedAmtL) := by
  have hcond : (!(cleanAmount mixedAmtL).isEmpty
      && (cleanAmount mixedAmtL).all Char.isDigit) = false := by decide
  have hspec : parseAmountSpec mixedAmtL = 0 := by
    unfold parseAmountSpec
    rw [if_neg (by rw [hcond]; exact Bool.false_ne_true), jsNum_ofNat_eq]
    simp
  refine ⟨parseAmount_123a, hspec, ?_⟩
  rw [parseAmount_123a, hspec, jsNum_ofNat_eq, jsNum_ofNat_eq]
  simp

/-- C8 (amended): `parseAmount` strips every `.` and `,`.  A nonempty
all-digit remainder is read as that integer.  A remainder with no digit
and no `I` (hence no `Infinity` literal) yields 0.  `parseFloat` keeps
the longest numeric prefix, so a leading digit run followed by a
residue that starts with neither a digit nor an exponent marker is read
as the run's value, and the amount string `Infinity` yields Infinity
(a truthy value kept by `|| 0`), not 0. -/
theorem parseAmount_prefix_amended (l1 l2 l3 : List Char)
    (h1 : cleanAmount l1 ≠ []) (h2 : ∀ c ∈ cleanAmount l1, c.isDigit = true)
    (h3 : 'I' ∉ cleanAmount l2) (h4 : ∀ c ∈ cleanAmount l2, c.isDigit = false)
    (ds : List Char) (r0 : Char) (rr : List Char)
    (h5 : cleanAmount l3 = ds ++ r0 :: rr) (h6 : ds ≠ [])
    (h7 : ∀ c ∈ ds, c.isDigit = true) (h8 : r0.isDigit = false)
    (h9 : r0 ≠ 'e') (h10 : r0 ≠ 'E') :
    parseAmount l1 = JsNum.finite (digitsToNat (cleanAmount l1) : ℚ)
    ∧ parseAmount l2 = JsNum.finite 0
    ∧ parseAmount l3 = JsNum.finite (digitsToNat ds : ℚ)
    ∧ parseAmount infinityAmtL = JsNum.posInf :=
  ⟨parseAmount_all_digits h1 h2, parseAmount_no_digits h3 h4,
   parseAmount_digit_run h5 h6 h7 h8 h9 h10, parseAmount_infinity⟩

/-- C8 (witness): the amended claim at the spec's own example strings
and the `123a` prefix string. -/
theorem parseAmount_prefix_amended_witness :
    parseAmount amt1L = JsNum.finite (digitsToNat (cleanAmount amt1L) : ℚ)
    ∧ parseAmount abcAmtL = JsNum.finite 0
    ∧ parseAmount mixedAmtL = JsNum.finite (digitsToNat (("123").toList) : ℚ)
    ∧ parseAmount infinityAmtL = JsNum.posInf :=
  parseAmount_prefix_amended amt1L abcAmtL mixedAmtL (by decide) (by decide)
    (by decide) (by decide) (("123").toList) 'a' [] (by decide) (by decide)
    (by decide) (by decide) (by decide) (by decide)

/-- C5: for a record list whose amounts parse to pairwise-distinct
values, sorting by `amount` descending yields exactly the reverse of
sorting the same list ascending. -/
theorem sort_amount_desc_reverse (l : List Transaction)
    (hd : l.Pairwise (fun a b => parseAmount a.amount ≠ parseAmount b.amount)) :
    (sortedTransactions (some ⟨SortKey.amount, ascendingStr⟩) l).reverse
      = sortedTransactions (some ⟨SortKey.amount, descendingStr⟩) l := by
  have hr1 : ∀ a b : Transaction,
      cmpTx (some ⟨SortKey.amount, ascendingStr⟩) a b
        = JsNum.sub (parseAmount a.amount) (parseAmount b.amount) := by
    intro a b
    rw [cmpTx_some_eq]
    exact if_pos rfl
  have hr2 : ∀ a b : Transaction,
      cmpTx (some ⟨SortKey.amount, descendingStr⟩) a b
        = JsNum.sub (parseAmount b.amount) (parseAmount a.amount) := by
    intro a b
    rw [cmpTx_some_eq]
    exact if_neg (by decide)
  haveI : IsTotal Transaction
      (fun a b => (cmpTx (some ⟨SortKey.amount, ascendingStr⟩) a b).nonpos = true) :=
    ⟨cmpTx_total _⟩
  haveI : IsTrans Transaction
      (fun a b => (cmpTx (some ⟨SortKey.amount, ascendingStr⟩) a b).nonpos = true) :=
    ⟨cmpTx_trans _⟩
  haveI : IsTotal Transaction
      (fun a b => (cmpTx (some ⟨SortKey.amount, descendingStr⟩) a b).nonpos = true) :=
    ⟨cmpTx_total _⟩
  haveI : IsTrans Transaction
      (fun a b => (cmpTx (some ⟨SortKey.amount, descendingStr⟩) a b).nonpos = true) :=
    ⟨cmpTx_trans _⟩
  have hs1 := List.sorted_insertionSort
    (fun a b => (cmpTx (some ⟨SortKey.amount, ascendingStr⟩) a b).nonpos = true) l
  have hs2 := List.sorted_insertionSort
    (fun a b => (cmpTx (some ⟨SortKey.amount, descendingStr⟩) a b).nonpos = true) l
  have hp1 := List.perm_insertionSort
    (fun a b => (cmpTx (some ⟨SortKey.amount, ascendingStr⟩) a b).nonpos = true) l
  have hp2 := List.perm_insertionSort
    (fun a b => (cmpTx (some ⟨SortKey.amount, descendingStr⟩) a b).nonpos = true) l
  unfold sortedTransactions
  have hrev : (List.insertionSort
      (fun a b => (cmpTx (some ⟨SortKey.amount, ascendingStr⟩) a b).nonpos = true)
      l).reverse.Perm l :=
    (List.reverse_perm _).trans hp1
  have hsymm : ∀ {x y : Transaction},
      (fun a b : Transaction => parseAmount a.amount ≠ parseAmount b.amount) x y →
      (fun a b : Transaction => parseAmount a.amount ≠ parseAmount b.amount) y x :=
    fun h => Ne.symm h
  have hne1 : (List.insertionSort
      (fun a b => (cmpTx (some ⟨SortKey.amount, ascendingStr⟩) a b).nonpos = true)
      l).reverse.Pairwise
      (fun a b => parseAmount a.amount ≠ parseAmount b.amount) :=
    (List.Perm.pairwise_iff hsymm hrev).mpr hd
  have hne2 : (List.insertionSort
      (fun a b => (cmpTx (some ⟨SortKey.amount, descendingStr⟩) a b).nonpos = true)
      l).Pairwise
      (fun a b => parseAmount a.amount ≠ parseAmount b.amount) :=
    (List.Perm.pairwise_iff hsymm hp2).mpr hd
  have hPW1 : (List.insertionSort
      (fun a b => (cmpTx (some ⟨SortKey.amount, ascendingStr⟩) a b).nonpos = true)
      l).reverse.Pairwise
      (fun a b => (cmpTx (some ⟨SortKey.amount, ascendingStr⟩) b a).nonpos = true) :=
    List.pairwise_reverse.mpr hs1
  have hlt1 : (List.insertionSort
      (fun a b => (cmpTx (some ⟨SortKey.amount, ascendingStr⟩) a b).nonpos = true)
      l).reverse.Pairwise
      (fun a b => (JsNum.sub (parseAmount b.amount) (parseAmount a.amount)).nonpos = true
        ∧ (JsNum.sub (parseAmount a.amount) (parseAmount b.amount)).nonpos = false) :=
    (hPW1.and hne1).imp (fun {a b} h => by
      obtain ⟨hab, hne⟩ := h
      rw [hr1] at hab
      refine ⟨hab, ?_⟩
      rcases hx : (JsNum.sub (parseAmount a.amount) (parseAmount b.amount)).nonpos with _ | _
      · rfl
      · exact absurd
          (jsle_antisymm _ _ (parseAmount_ne_nan _) (parseAmount_ne_nan _) hx hab) hne)
  have hlt2 : (List.insertionSort
      (fun a b => (cmpTx (some ⟨SortKey.amount, descendingStr⟩) a b).nonpos = true)
      l).Pairwise
      (fun a b => (JsNum.sub (parseAmount b.amount) (parseAmount a.amount)).nonpos = true
        ∧ (JsNum.sub (parseAmount a.amount) (parseAmount b.amount)).nonpos = false) :=
    (List.Pairwise.and hs2 hne2).imp (fun {a b} h => by
      obtain ⟨hab, hne⟩ := h
      rw [hr2] at hab
      refine ⟨hab, ?_⟩
      rcases hx : (JsNum.sub (parseAmount a.amount) (parseAmount b.amount)).nonpos with _ | _
      · rfl
      · exact absurd
          (jsle_antisymm _ _ (parseAmount_ne_nan _) (parseAmount_ne_nan _) hx hab) hne)
  have hasym : ∀ (a b : Transaction),
      ((JsNum.sub (parseAmount b.amount) (parseAmount a.amount)).nonpos = true
        ∧ (JsNum.sub (parseAmount a.amount) (parseAmount b.amount)).nonpos = false) →
      ¬ ((JsNum.sub (parseAmount a.amount) (parseAmount b.amount)).nonpos = true
        ∧ (JsNum.sub (parseAmount b.amount) (parseAmount a.amount)).nonpos = false) :=
    fun a b h1 h2 => Bool.false_ne_true (h1.2 ▸ h2.1)
  exact eq_of_perm_of_pairwise hasym (hrev.trans hp2.symm) hlt1 hlt2

/-- C5 (witness): the reversal law on a concrete two-record list with
distinct parsed amounts. -/
theorem sort_amount_desc_reverse_witness :
    (sortedTransactions (some ⟨SortKey.amount, ascendingStr⟩) [tx0, tx1]).reverse
      = sortedTransactions (some ⟨SortKey.amount, descendingStr⟩) [tx0, tx1] :=
  sort_amount_desc_reverse [tx0, tx1]
    (by simp [List.pairwise_cons, amounts_tx0_tx1_ne])

/-- C6: the visible page the code computes (stable sort, then filter,
then slice `[cp·ipp − ipp, cp·ipp)`) equals the spec's pipeline order
(filter, then stable sort, then slice `[(cp−1)·ipp, cp·ipp)`) for every
record list, search string, sort directive, page size, and 1-based page
number. -/
theorem pipeline_refines_spec (low : Char → List Char) (cfg : Option SortConfig)
    (s : List Char) (cp ipp : Nat) (l : List Transaction) (hcp : 1 ≤ cp) :
    currentTransactions low cfg s cp ipp l = specPipeline low cfg s cp ipp l := by
  haveI : IsTotal Transaction (fun a b => (cmpTx cfg a b).nonpos = true) := ⟨cmpTx_total cfg⟩
  haveI : IsTrans Transaction (fun a b => (cmpTx cfg a b).nonpos = true) := ⟨cmpTx_trans cfg⟩
  unfold currentTransactions specPipeline currentSlice filteredTransactions sortedTransactions
  rw [filter_insertionSort]
  rw [show cp * ipp - ipp = (cp - 1) * ipp from by rw [Nat.sub_mul, one_mul]]

/-- C6 (witness): the two pipeline orders agree at concrete inputs. -/
theorem pipeline_refines_spec_witness :
    currentTransactions low0 none abcL 1 10 [tx0, tx1]
      = specPipeline low0 none abcL 1 10 [tx0, tx1] :=
  pipeline_refines_spec low0 none abcL 1 10 [tx0, tx1] (by decide)

/-- C9: on a 95-record filtered list with page size 10 and 1-based page
number N ≤ 10, the visible slice is `records[(N−1)·10 : N·10]`, pages 1
through 9 hold exactly 10 records, page 10 holds exactly 5, and the
total page count is 10. -/
theorem pagination_95_records (l : List Transaction) (h95 : l.length = 95)
    (N : Nat) (h1 : 1 ≤ N) (h2 : N ≤ 10) :
    currentSlice N 10 l = (l.drop ((N - 1) * 10)).take 10
    ∧ (currentSlice N 10 l).length = (if N = 10 then 5 else 10)
    ∧ totalPages 95 10 = 10 := by
  have hidx : N * 10 - 10 = (N - 1) * 10 := by rw [Nat.sub_mul, one_mul]
  have hcount : N * 10 - (N * 10 - 10) = 10 := by omega
  refine ⟨?_, ?_, totalPages_95_10⟩
  · unfold currentSlice jsSlice
    rw [hcount, hidx]
  · unfold currentSlice jsSlice
    rw [List.length_take, List.length_drop, h95, hcount]
    split_ifs with hN <;> omega

/-- C9 (witness): page 10 of a concrete 95-record list. -/
theorem pagination_95_records_witness :
    currentSlice 10 10 mk95 = (mk95.drop ((10 - 1) * 10)).take 10
    ∧ (currentSlice 10 10 mk95).length = (if (10 : Nat) = 10 then 5 else 10)
    ∧ totalPages 95 10 = 10 :=
  pagination_95_records mk95 (by simp [mk95]) 10 (by decide) (by decide)

/-- Reading any live cell of the store is unaffected by the three
allocations and the in-place sort of the fresh copy. -/
theorem readH_frame_steps (h : Heap) (r : Nat) (hr : r < h.length)
    (v S F C : List Transaction) :
    readH ((((h ++ [v]).set h.length S) ++ [F]) ++ [C]) r = readH h r := by
  rw [readH_append_lt ((h ++ [v]).set h.length S ++ [F]) [C] r
      (by simp only [List.length_append, List.length_set, List.length_cons,
        List.length_nil]; omega)]
  rw [readH_append_lt ((h ++ [v]).set h.length S) [F] r
      (by simp only [List.length_append, List.length_set, List.length_cons,
        List.length_nil]; omega)]
  rw [readH_set_ne (h ++ [v]) h.length r S (by omega)]
  rw [readH_append_lt h [v] r hr]

/-- C10: the render-time pipeline never mutates the state's
transactions array.  In the store model, `[...transactions]` allocates
a copy, `.sort` mutates only that copy, and `.filter`/`.slice` allocate
fresh cells, so the original cell is unchanged and the output cell
holds exactly the pure pipeline's visible page. -/
theorem pipeline_frame (low : Char → List Char) (cfg : Option SortConfig)
    (s : List Char) (cp ipp : Nat) (h : Heap) (r : Nat) (hr : r < h.length) :
    readH (pipelineH low cfg s cp ipp h r).1 r = readH h r
    ∧ readH (pipelineH low cfg s cp ipp h r).1 (pipelineH low cfg s cp ipp h r).2
        = currentTransactions low cfg s cp ipp (readH h r) := by
  constructor
  · simp only [pipelineH, readH_append_len]
    exact readH_frame_steps h r hr _ _ _ _
  · have hlt : List.length h < List.length (h ++ [readH h r]) := by
      simp only [List.length_append, List.length_cons, List.length_nil]
      omega
    simp only [pipelineH, readH_append_len]
    rw [readH_set_len _ _ _ hlt]
    unfold currentTransactions filteredTransactions
    rfl

/-- C10 (witness): the frame property on a concrete one-cell store. -/
theorem pipeline_frame_witness :
    readH (pipelineH low0 none abL 1 10 [[tx0, tx1]] 0).1 0 = readH [[tx0, tx1]] 0
    ∧ readH (pipelineH low0 none abL 1 10 [[tx0, tx1]] 0).1
          (pipelineH low0 none abL 1 10 [[tx0, tx1]] 0).2
        = currentTransactions low0 none abL 1 10 (readH [[tx0, tx1]] 0) :=
  pipeline_frame low0 none abL 1 10 [[tx0, tx1]] 0 (by decide)
